import Mathlib

/-!
Verification of the basic-block coverage engine and report writers of
`s2e_env/commands/code_coverage/basic_block.py`.

The Python source is shallowly embedded: pure computations become Lean
functions over `Nat` (Python ints are unbounded, addresses are nonnegative),
the filesystem side effects of the drcov writer become explicit state
passing over a small `Fs` record, and Python exceptions become
`Except`/`Option` results.
-/

/-! The `BasicBlock` value used by the engine and the writers.

`BasicBlock.__init__` stores `start_addr`, `end_addr` and
`function if function else` empty string (so `None` and the empty string
both normalise to the empty string).  For the coverage engine and the
writers only the three
stored fields matter, so the engine-level embedding is a structure with
those fields. -/

structure BasicBlock where
  start_addr : Nat
  end_addr : Nat
  function : String
deriving DecidableEq, Repr, Inhabited

/-- Constructor `BasicBlock.__init__(self, start_addr, end_addr, function=None)`:
`self._function` is `function` when `function` is truthy and the empty
string otherwise.  `none` models Python `None`; a Python empty string is
falsy, so it also normalises to the empty string. -/
def basicBlockInit (start_addr end_addr : Nat) (function : Option String) : BasicBlock :=
  { start_addr := start_addr
    end_addr := end_addr
    function := match function with
                | none => ""
                | some f => if f = "" then "" else f }

/-! CPython object semantics of the `BasicBlock` class (for claim C4).

The class defines none of `__eq__`, `__hash__`, `__lt__` (and is not a
dataclass and not decorated), so CPython default semantics apply:
`==` compares object identity, `hash` is derived from the object id, and
`<` raises `TypeError`.  Object identity is modelled by an explicit `oid`
field distinguishing distinct objects that carry equal field values. -/

structure PyBasicBlock where
  oid : Nat
  start_addr : Nat
  end_addr : Nat
  function : String
deriving DecidableEq, Repr

/-- Python `a == b` for `BasicBlock` objects: the class defines no
`__eq__`, so the CPython default (identity comparison) applies. -/
def pyBasicBlockEq (a b : PyBasicBlock) : Bool :=
  a.oid == b.oid

/-- Python `hash(a)` for a `BasicBlock` object: the class defines no
`__hash__`, so the CPython default (derived from the object id) applies. -/
def pyBasicBlockHash (a : PyBasicBlock) : Nat :=
  a.oid

/-- Python `a < b` for `BasicBlock` objects: the class defines no ordering
methods, so the comparison raises `TypeError`. -/
def pyBasicBlockLt (a b : PyBasicBlock) : Except String Bool :=
  Except.error "TypeError: not supported between instances of BasicBlock"

/-! Methods `BasicBlockEncoder.default` and `BasicBlockDecoder.object_hook`
(for claim C10).

The encoder turns a `BasicBlock` into the JSON object
with keys start_addr, end_addr and function, modelled as a triple; the
decoder method `object_hook` rebuilds a `BasicBlock` from such an object via the class
constructor.  The JSON string round trip of ints and strings is performed
by the Python `json` library and is not re-modelled. -/

/-- Encoder method `BasicBlockEncoder.default`: a `BasicBlock` is encoded as the JSON
object with its three fields. -/
def bbEncoderDefault (bb : BasicBlock) : Nat × Nat × String :=
  (bb.start_addr, bb.end_addr, bb.function)

/-- Decoder method `BasicBlockDecoder.object_hook` on an object with a start_addr key
rebuilds the block as `BasicBlock` of the start_addr, end_addr and
function entries of the object. -/
def bbDecoderObjectHook (d : Nat × Nat × String) : BasicBlock :=
  basicBlockInit d.1 d.2.1 (some d.2.2)

/-! Function `_get_cached_disassembly_info` (for claim C5).

The decision inputs are: whether the `.disas` file exists, the
modification time of the `.disas` file (`os.path.getmtime(disas_path)`),
and the modification time the source actually compares it against —
`os.path.getmtime` of the project_dir entry of `self._project_desc`,
i.e. the project directory, not the target binary. -/

structure DisasInfo where
  bbs : List BasicBlock
  base_addr : Nat
  end_addr : Nat
deriving DecidableEq, Repr

/-- Model of `_get_cached_disassembly_info`: returns `None` when no `.disas` file
exists, or when `disas_mtime < os.path.getmtime(project_dir)`; otherwise
returns the cached contents.  Note the source compares against the mtime
of the project directory, not of the target binary. -/
def get_cached_disassembly_info (disas_file_exists : Bool)
    (disas_mtime project_dir_mtime : Nat) (cached : DisasInfo) : Option DisasInfo :=
  if !disas_file_exists then
    none
  else if disas_mtime < project_dir_mtime then
    none
  else
    some cached

/-! Function `_save_drcov` (for claims C2 and C6).

The filesystem is modelled as the set of existing directories and the
written files.  `open(path, mode, encoding=...)` is modelled after CPython
`io.open`: passing an `encoding` together with a binary mode raises
`ValueError` before any file is created. -/

structure Fs where
  dirs : List String
  files : List (String × String)
deriving DecidableEq, Repr

/-- CPython `open(path, mode, encoding=encoding)`: a binary mode (a char
'b' in the mode string) combined with a not-`None` encoding raises
`ValueError`, binary mode takes no encoding argument. -/
def pyOpen (mode : String) (encoding : Option String) : Except String Unit :=
  if mode.data.contains 'b' && encoding.isSome then
    Except.error "ValueError: binary mode takes no encoding argument"
  else
    Except.ok ()

/-- Semantics of `struct.pack` with format string "IHH" on offset, size, mod_id (the
source constant `DRCOV_BB_FORMAT`) on a little-endian host: a 32-bit unsigned
little-endian value followed by two 16-bit unsigned little-endian values,
8 bytes total. -/
def natLEBytes (n width : Nat) : List Nat :=
  (List.range width).map (fun i => n / 256 ^ i % 256)

/-- One packed drcov basic-block record, `struct.pack(DRCOV_BB_FORMAT, ...)`. -/
def structPackIHH (offset size mod_id : Nat) : List Nat :=
  natLEBytes offset 4 ++ natLEBytes size 2 ++ natLEBytes mod_id 2

/-- The per-state loop of `_save_drcov`.  For each state the source calls
`open` of the drcov file with mode "wb" and encoding "utf-8", which
raises `ValueError` (binary mode with an encoding), aborting with no
file written.  On a
successful open the source would write the drcov header, the module row,
the `BB Table` line and the packed records before moving to the next
state; that code is unreachable because the open call always raises. -/
def save_drcovLoop (fs : Fs) (basic_blocks : List (Nat × List BasicBlock)) :
    Fs × Option String :=
  match basic_blocks with
  | [] => (fs, none)
  | _ :: rest =>
    match pyOpen "wb" (some "utf-8") with
    | Except.error e => (fs, some e)
    | Except.ok _ => save_drcovLoop fs rest

/-- Model of `_save_drcov`: raise `CommandError` if the `drcov` output directory
already exists; otherwise `os.mkdir` it and write one drcov file per
state.  The project-relative output directory built by the source from
the components s2e-last and drcov is the fixed path "s2e-last/drcov". -/
def save_drcov (fs : Fs) (module_base module_end : Nat)
    (basic_blocks : List (Nat × List BasicBlock)) : Fs × Option String :=
  if "s2e-last/drcov" ∈ fs.dirs then
    (fs, some "CommandError: drcov directory already exists")
  else
    save_drcovLoop { fs with dirs := "s2e-last/drcov" :: fs.dirs } basic_blocks

/-! Function `_save_basic_block_coverage` (for claim C7).

The function writes a JSON document with a `stats` object and a flattened
`coverage` list; the document is modelled as a record, the per-basic-block
dicts as triples. -/

/-- The `to_dict` lambda of `_save_basic_block_coverage`. -/
def to_dict (bb : BasicBlock) : Nat × Nat × String :=
  (bb.start_addr, bb.end_addr, bb.function)

structure CoverageJson where
  total_basic_blocks : Nat
  covered_basic_blocks : Nat
  coverage : List (Nat × Nat × String)
deriving DecidableEq, Repr

/-- Model of `_save_basic_block_coverage`: builds
a document whose stats object carries total_basic_blocks and
covered_basic_blocks, and whose coverage entry is the comprehension
`to_dict bb  for bbs in basic_blocks.values() for bb in bbs`.
The state-id-to-covered-set dictionary is modelled as an association list
whose values are the per-state sets (duplicate-free lists). -/
def save_basic_block_coverage (basic_blocks : List (Nat × List BasicBlock))
    (total_bbs num_covered_bbs : Nat) : CoverageJson :=
  { total_basic_blocks := total_bbs
    covered_basic_blocks := num_covered_bbs
    coverage := (basic_blocks.map Prod.snd).flatMap (fun bbs => bbs.map to_dict) }

/-! Functions `_binary_search` and `_get_basic_block_coverage` (claims C1, C3, C8, C9).

`_binary_search(tb_start_addr, bbs)` indexes `bbs[0]`, `bbs[hi]` and
`bbs[mid]`; all its callers pass a non-empty list (an empty list raises
`IndexError` in Python), so indexing is modelled with `List.getD` and the
claims carry the non-emptiness hypothesis.

The Python `while lo <= hi` loop over `int` indices is embedded over `Nat`
with `hi1 = hi + 1` (so the exit state `hi = -1` is `hi1 = 0`):
`lo <= hi` becomes `lo < hi1` and `mid = (lo + hi) // 2` becomes
`(lo + hi1 - 1) / 2`.  The loop strictly shrinks `hi1 - lo` on every
iteration, so running it on `fuel ≥ hi1 - lo` steps is exact; the fuel-out
value is never reached (`binarySearch` passes `fuel = len(bbs) = hi1 - lo`). -/

/-- Indexing `bbs[i]` for an index known to be in range at every call site. -/
def bbGet (bbs : List BasicBlock) (i : Nat) : BasicBlock :=
  bbs.getD i default

/-- The `while lo <= hi` loop of `_binary_search`:
`mid = (lo + hi) // 2` (written out as `(lo + hi1 - 1) / 2` at each
occurrence); move `lo` past `mid` when
`bbs[mid].start_addr < tb_start_addr`, move `hi` below `mid` when
`bbs[mid].start_addr > tb_start_addr`, return `mid` on an exact match;
fall through to `return num_bbs` when the window empties. -/
def bsLoop (tb_start_addr : Nat) (bbs : List BasicBlock) :
    Nat → Nat → Nat → Nat
  | 0, _, _ => bbs.length
  | fuel + 1, lo, hi1 =>
    if lo < hi1 then
      if (bbGet bbs ((lo + hi1 - 1) / 2)).start_addr < tb_start_addr then
        bsLoop tb_start_addr bbs fuel ((lo + hi1 - 1) / 2 + 1) hi1
      else if (bbGet bbs ((lo + hi1 - 1) / 2)).start_addr > tb_start_addr then
        bsLoop tb_start_addr bbs fuel lo ((lo + hi1 - 1) / 2)
      else
        (lo + hi1 - 1) / 2
    else
      bbs.length

/-- Model of `_binary_search(tb_start_addr, bbs)`: return `0` when
`tb_start_addr <= bbs[0].end_addr`, `num_bbs` when
`tb_start_addr > bbs[num_bbs - 1].end_addr`, otherwise run the search loop
with `lo = 0`, `hi = num_bbs - 1`. -/
def binarySearch (tb_start_addr : Nat) (bbs : List BasicBlock) : Nat :=
  if tb_start_addr ≤ (bbGet bbs 0).end_addr then 0
  else if tb_start_addr > (bbGet bbs (bbs.length - 1)).end_addr then bbs.length
  else bsLoop tb_start_addr bbs bbs.length 0 bbs.length

/-- The half-overlap test of `_get_basic_block_coverage`:
`bb.end_addr >= tb_start_addr >= bb.start_addr or
 bb.start_addr <= tb_end_addr <= bb.end_addr`
(Python chained comparisons are conjunctions). -/
def tbOverlaps (bb : BasicBlock) (tb_start_addr tb_end_addr : Nat) : Bool :=
  (bb.end_addr ≥ tb_start_addr && tb_start_addr ≥ bb.start_addr) ||
  (bb.start_addr ≤ tb_end_addr && tb_end_addr ≤ bb.end_addr)

/-- The inner `for i in range(start_idx, num_bbs)` scan of
`_get_basic_block_coverage`, expressed over the suffix
`bbs[start_idx:]`: add `bb` when the half-overlap test passes, then break
when `bb.start_addr > tb_end_addr`.  Returns the blocks added, in scan
order (the Python `set.add` accumulation is adding exactly these). -/
def scanTB (tb_start_addr tb_end_addr : Nat) : List BasicBlock → List BasicBlock
  | [] => []
  | bb :: rest =>
    let tail := if bb.start_addr > tb_end_addr then []
                else scanTB tb_start_addr tb_end_addr rest
    if tbOverlaps bb tb_start_addr tb_end_addr then bb :: tail else tail

/-- The same scan run to the end of the list, with no short-circuit break.
Modelled from the spec sentence it is compared against ("the same scan run
to the end of the list from the same starting index"), for claim C9. -/
def scanFullTB (tb_start_addr tb_end_addr : Nat) : List BasicBlock → List BasicBlock
  | [] => []
  | bb :: rest =>
    if tbOverlaps bb tb_start_addr tb_end_addr then
      bb :: scanFullTB tb_start_addr tb_end_addr rest
    else
      scanFullTB tb_start_addr tb_end_addr rest

/-- Blocks a single translation block `(tb_start_addr, tb_end_addr)` adds
to the set of the current state: binary-search a start index, then scan from
there (the scan over `range(start_idx, num_bbs)` is the scan of the
suffix `bbs[start_idx:]`). -/
def tbCovered (bbs : List BasicBlock) (tb_start_addr tb_end_addr : Nat) :
    List BasicBlock :=
  scanTB tb_start_addr tb_end_addr (bbs.drop (binarySearch tb_start_addr bbs))

/-- All blocks the translation-block list of one state
`[(tb_start_addr, tb_end_addr, size), ...]` marks covered (the third
tuple component is discarded by the source).  The Python per-state `set`
is modelled by this list: a block is in the set of the state iff it is in this
list. -/
def stateCoveredBBs (bbs : List BasicBlock) (coverage : List (Nat × Nat × Nat)) :
    List BasicBlock :=
  coverage.flatMap (fun t => tbCovered bbs t.1 t.2.1)

/-- Model of `_get_basic_block_coverage(tb_coverage, bbs)`: the
`defaultdict(set)` result holds an entry for a state iff at least one
block was added for it; the state-to-intervals dictionary is modelled as
an association list. -/
def getBasicBlockCoverage (tb_coverage : List (Nat × List (Nat × Nat × Nat)))
    (bbs : List BasicBlock) : List (Nat × List BasicBlock) :=
  (tb_coverage.map (fun p => (p.1, stateCoveredBBs bbs p.2))).filter
    (fun p => !p.2.isEmpty)

/-! Shape predicates on basic-block lists. -/

/-- Every block has `start_addr <= end_addr` (the data-model invariant of
the spec on basic blocks). -/
def wellFormed (bbs : List BasicBlock) : Prop :=
  ∀ bb ∈ bbs, bb.start_addr ≤ bb.end_addr

/-- The list is sorted ascending by `start_addr` (the documented
precondition of the engine; ties allowed). -/
def sortedByStart (bbs : List BasicBlock) : Prop :=
  bbs.Pairwise (fun a b => a.start_addr ≤ b.start_addr)

/-- The list is strictly sorted by `start_addr` (no two blocks share a
start address). -/
def strictSortedByStart (bbs : List BasicBlock) : Prop :=
  bbs.Pairwise (fun a b => a.start_addr < b.start_addr)

/-- The blocks are pairwise disjoint and in address order: each block ends
strictly before the next begins. -/
def disjSorted (bbs : List BasicBlock) : Prop :=
  bbs.Pairwise (fun a b => a.end_addr < b.start_addr)

/-- A search address the literal `_binary_search` can handle: it hits one
of the two guard cases, or some block starts exactly at it. -/
def findable (tb_start_addr : Nat) (bbs : List BasicBlock) : Prop :=
  tb_start_addr ≤ (bbGet bbs 0).end_addr ∨
  tb_start_addr > (bbGet bbs (bbs.length - 1)).end_addr ∨
  ∃ bb ∈ bbs, bb.start_addr = tb_start_addr

instance (bbs : List BasicBlock) : Decidable (wellFormed bbs) :=
  inferInstanceAs (Decidable (∀ bb ∈ bbs, bb.start_addr ≤ bb.end_addr))

instance (bbs : List BasicBlock) : Decidable (sortedByStart bbs) :=
  inferInstanceAs (Decidable (bbs.Pairwise _))

instance (bbs : List BasicBlock) : Decidable (strictSortedByStart bbs) :=
  inferInstanceAs (Decidable (bbs.Pairwise _))

instance (bbs : List BasicBlock) : Decidable (disjSorted bbs) :=
  inferInstanceAs (Decidable (bbs.Pairwise _))

instance (ts : Nat) (bbs : List BasicBlock) : Decidable (findable ts bbs) :=
  inferInstanceAs (Decidable (_ ∨ _ ∨ ∃ bb ∈ bbs, bb.start_addr = ts))

/-! Helper lemmas -/

theorem bbGet_eq (bbs : List BasicBlock) {i : Nat} (h : i < bbs.length) :
    bbGet bbs i = bbs[i] :=
  List.getD_eq_getElem bbs default h

theorem tbOverlaps_iff {bb : BasicBlock} {ts te : Nat} :
    tbOverlaps bb ts te = true ↔
      (ts ≤ bb.end_addr ∧ bb.start_addr ≤ ts) ∨
      (bb.start_addr ≤ te ∧ te ≤ bb.end_addr) := by
  simp [tbOverlaps, and_comm]

theorem sortedByStart_of_strict {bbs : List BasicBlock}
    (h : strictSortedByStart bbs) : sortedByStart bbs :=
  h.imp Nat.le_of_lt

theorem sortedByStart_drop {bbs : List BasicBlock} (h : sortedByStart bbs)
    (i : Nat) : sortedByStart (bbs.drop i) :=
  List.Pairwise.sublist (List.drop_sublist i bbs) h

theorem getElem_mem_drop {bbs : List BasicBlock} {i j : Nat}
    (hij : i ≤ j) (hj : j < bbs.length) : bbs[j] ∈ bbs.drop i := by
  rw [List.mem_iff_getElem]
  refine ⟨j - i, by simp [List.length_drop]; omega, ?_⟩
  rw [List.getElem_drop]
  congr 1
  omega

/-- Every block the inner scan adds is in the scanned list and passes the
half-overlap test. -/
theorem scanTB_subset {ts te : Nat} {l : List BasicBlock} {bb : BasicBlock}
    (h : bb ∈ scanTB ts te l) : bb ∈ l ∧ tbOverlaps bb ts te = true := by
  induction l with
  | nil => simp [scanTB] at h
  | cons a rest ih =>
    rw [scanTB] at h
    by_cases hov : tbOverlaps a ts te = true
    · rw [if_pos hov] at h
      rcases List.mem_cons.mp h with h | h
      · subst h; exact ⟨List.mem_cons_self _ _, hov⟩
      · by_cases hbr : a.start_addr > te
        · simp [hbr] at h
        · simp only [hbr, if_neg, ite_false] at h
          have := ih h
          exact ⟨List.mem_cons_of_mem _ this.1, this.2⟩
    · rw [if_neg hov] at h
      by_cases hbr : a.start_addr > te
      · simp [hbr] at h
      · simp only [hbr, ite_false] at h
        have := ih h
        exact ⟨List.mem_cons_of_mem _ this.1, this.2⟩

/-- On a list sorted by `start_addr`, with a well-ordered interval
(`ts ≤ te`), the short-circuit break never skips a block that passes the
half-overlap test: every such block of the list is added. -/
theorem scanTB_complete {ts te : Nat} {l : List BasicBlock} {bb : BasicBlock}
    (hsort : l.Pairwise (fun a b => a.start_addr ≤ b.start_addr))
    (hle : ts ≤ te) (hbb : bb ∈ l) (hov : tbOverlaps bb ts te = true) :
    bb ∈ scanTB ts te l := by
  induction l with
  | nil => simp at hbb
  | cons a rest ih =>
    rw [scanTB]
    rcases List.mem_cons.mp hbb with h | h
    · subst h
      rw [if_pos hov]
      exact List.mem_cons_self _ _
    · have hstart : bb.start_addr ≤ te := by
        rcases tbOverlaps_iff.mp hov with ⟨_, h2⟩ | ⟨h1, _⟩
        · omega
        · exact h1
      have hab : a.start_addr ≤ bb.start_addr :=
        (List.pairwise_cons.mp hsort).1 bb h
      have hbr : ¬ a.start_addr > te := by omega
      have hrest := ih (List.pairwise_cons.mp hsort).2 h
      simp only [hbr, ite_false]
      by_cases hova : tbOverlaps a ts te = true
      · rw [if_pos hova]; exact List.mem_cons_of_mem _ hrest
      · rw [if_neg hova]; exact hrest

/-- If every block of the list fails the half-overlap test, the full
(no-break) scan adds nothing. -/
theorem scanFullTB_eq_nil {ts te : Nat} {l : List BasicBlock}
    (h : ∀ b ∈ l, tbOverlaps b ts te = false) : scanFullTB ts te l = [] := by
  induction l with
  | nil => rfl
  | cons a rest ih =>
    rw [scanFullTB]
    rw [h a (List.mem_cons_self _ _)]
    simp only [Bool.false_eq_true, ite_false]
    exact ih fun b hb => h b (List.mem_cons_of_mem _ hb)

/-- Core of claim C9: on a list sorted by `start_addr`, with `ts ≤ te`,
the scan with the short-circuit break produces exactly the blocks the
full scan produces. -/
theorem scanTB_eq_scanFullTB {ts te : Nat} {l : List BasicBlock}
    (hsort : l.Pairwise (fun a b => a.start_addr ≤ b.start_addr))
    (hle : ts ≤ te) : scanTB ts te l = scanFullTB ts te l := by
  induction l with
  | nil => rfl
  | cons a rest ih =>
    rw [scanTB, scanFullTB]
    by_cases hbr : a.start_addr > te
    · have hova : tbOverlaps a ts te = false := by
        rw [Bool.eq_false_iff]
        intro hc
        rcases tbOverlaps_iff.mp hc with ⟨_, h2⟩ | ⟨h1, _⟩ <;> omega
      have hrest : scanFullTB ts te rest = [] := by
        refine scanFullTB_eq_nil fun b hb => ?_
        have hab : a.start_addr ≤ b.start_addr :=
          (List.pairwise_cons.mp hsort).1 b hb
        rw [Bool.eq_false_iff]
        intro hc
        rcases tbOverlaps_iff.mp hc with ⟨_, h2⟩ | ⟨h1, _⟩ <;> omega
      simp [hbr, hova, hrest]
    · have := ih (List.pairwise_cons.mp hsort).2
      simp only [hbr, ite_false, this]

/-- The search loop falls through to `num_bbs` when no block starts at the
searched address. -/
theorem bsLoop_no_match {ts : Nat} {bbs : List BasicBlock}
    (h : ∀ bb ∈ bbs, bb.start_addr ≠ ts) :
    ∀ fuel lo hi1, hi1 ≤ bbs.length → bsLoop ts bbs fuel lo hi1 = bbs.length := by
  intro fuel
  induction fuel with
  | zero => intro lo hi1 _; rfl
  | succ n ih =>
    intro lo hi1 hhi
    rw [bsLoop]
    by_cases hlt : lo < hi1
    · rw [if_pos hlt]
      have hmid : (lo + hi1 - 1) / 2 < bbs.length := by omega
      have hne : (bbGet bbs ((lo + hi1 - 1) / 2)).start_addr ≠ ts := by
        rw [bbGet_eq bbs hmid]
        exact h _ (List.getElem_mem hmid)
      rcases Nat.lt_trichotomy (bbGet bbs ((lo + hi1 - 1) / 2)).start_addr ts with hc | hc | hc
      · simp only [hc, if_pos]
        exact ih _ _ hhi
      · exact absurd hc hne
      · rw [if_neg (by omega), if_pos hc]
        exact ih _ _ (by omega)
    · rw [if_neg hlt]

/-- On a list sorted by `start_addr`, if some block with
`start_addr = ts` lies in the current window `[lo, hi1)` and the fuel
covers the window, the search loop returns an in-range index of a block
whose `start_addr` is exactly `ts`. -/
theorem bsLoop_finds {ts : Nat} {bbs : List BasicBlock}
    (hsort : sortedByStart bbs) :
    ∀ fuel lo hi1, hi1 ≤ bbs.length → hi1 - lo ≤ fuel →
      (∃ k, lo ≤ k ∧ k < hi1 ∧ ∃ hk : k < bbs.length, bbs[k].start_addr = ts) →
      bsLoop ts bbs fuel lo hi1 < bbs.length ∧
        (bbGet bbs (bsLoop ts bbs fuel lo hi1)).start_addr = ts := by
  have hmono : ∀ (i j : Nat) (hi : i < bbs.length) (hj : j < bbs.length),
      i < j → bbs[i].start_addr ≤ bbs[j].start_addr := by
    intro i j hi hj hij
    exact List.pairwise_iff_getElem.mp hsort i j hi hj hij
  intro fuel
  induction fuel with
  | zero =>
    intro lo hi1 _ hfuel ⟨k, hk1, hk2, _⟩
    omega
  | succ n ih =>
    intro lo hi1 hhi hfuel ⟨k, hk1, hk2, hk, hkts⟩
    have hlt : lo < hi1 := by omega
    rw [bsLoop, if_pos hlt]
    have hmidlo : lo ≤ (lo + hi1 - 1) / 2 := by omega
    have hmidhi : (lo + hi1 - 1) / 2 < hi1 := by omega
    have hmid : (lo + hi1 - 1) / 2 < bbs.length := by omega
    rw [bbGet_eq bbs hmid]
    rcases Nat.lt_trichotomy bbs[(lo + hi1 - 1) / 2].start_addr ts with hc | hc | hc
    · rw [if_pos hc]
      refine ih ((lo + hi1 - 1) / 2 + 1) hi1 hhi (by omega) ⟨k, ?_, hk2, hk, hkts⟩
      by_contra hcon
      have hkm : k ≤ (lo + hi1 - 1) / 2 := by omega
      rcases Nat.lt_or_ge k ((lo + hi1 - 1) / 2) with hklt | hkge
      · have := hmono k _ hk hmid hklt
        omega
      · have : k = (lo + hi1 - 1) / 2 := by omega
        subst this
        omega
    · rw [if_neg (by omega), if_neg (by omega)]
      exact ⟨hmid, by rw [bbGet_eq bbs hmid]; exact hc⟩
    · rw [if_neg (by omega), if_pos hc]
      refine ih lo ((lo + hi1 - 1) / 2) (by omega) (by omega) ⟨k, hk1, ?_, hk, hkts⟩
      by_contra hcon
      have hkm : (lo + hi1 - 1) / 2 ≤ k := by omega
      rcases Nat.lt_or_ge ((lo + hi1 - 1) / 2) k with hklt | hkge
      · have := hmono _ k hmid hk hklt
        omega
      · have : k = (lo + hi1 - 1) / 2 := by omega
        subst this
        omega

/-- On a well-formed, strictly start-sorted list, a translation block
exactly equal to a block `bb` of the list always adds `bb` (core of
amended claim C8). -/
theorem mem_tbCovered_exact {bbs : List BasicBlock} (hwf : wellFormed bbs)
    (hst : strictSortedByStart bbs) {bb : BasicBlock} (hbb : bb ∈ bbs) :
    bb ∈ tbCovered bbs bb.start_addr bb.end_addr := by
  have hsort : sortedByStart bbs := sortedByStart_of_strict hst
  have hle : bb.start_addr ≤ bb.end_addr := hwf bb hbb
  have hov : tbOverlaps bb bb.start_addr bb.end_addr = true :=
    tbOverlaps_iff.mpr (Or.inl ⟨hle, Nat.le_refl _⟩)
  obtain ⟨j, hj, hgetj⟩ := List.mem_iff_getElem.mp hbb
  have hstrict : ∀ (i k : Nat) (hi : i < bbs.length) (hk : k < bbs.length),
      i < k → bbs[i].start_addr < bbs[k].start_addr :=
    fun i k hi hk hik => List.pairwise_iff_getElem.mp hst i k hi hk hik
  suffices hidx : binarySearch bb.start_addr bbs ≤ j by
    rw [tbCovered]
    refine scanTB_complete (sortedByStart_drop hsort _) hle ?_ hov
    exact hgetj ▸ getElem_mem_drop hidx hj
  rw [binarySearch]
  by_cases h1 : bb.start_addr ≤ (bbGet bbs 0).end_addr
  · rw [if_pos h1]
    omega
  · rw [if_neg h1]
    by_cases h2 : bb.start_addr > (bbGet bbs (bbs.length - 1)).end_addr
    · exfalso
      rw [bbGet_eq bbs (by omega : bbs.length - 1 < bbs.length)] at h2
      by_cases hjl : j = bbs.length - 1
      · subst hjl
        rw [hgetj] at h2
        omega
      · have hjlt : j < bbs.length - 1 := by omega
        have h3 := hstrict j (bbs.length - 1) hj (by omega) hjlt
        rw [hgetj] at h3
        have h4 : bbs[bbs.length - 1].start_addr ≤ bbs[bbs.length - 1].end_addr :=
          hwf _ (List.getElem_mem (by omega))
        omega
    · rw [if_neg h2]
      obtain ⟨hrlt, hrts⟩ := @bsLoop_finds bb.start_addr bbs hsort bbs.length 0
        bbs.length (Nat.le_refl _) (by omega) ⟨j, Nat.zero_le _, hj, hj, by rw [hgetj]⟩
      rw [bbGet_eq bbs hrlt] at hrts
      by_contra hcon
      have hjr : j < bsLoop bb.start_addr bbs bbs.length 0 bbs.length := by omega
      have h6 := hstrict j _ hj hrlt hjr
      rw [hgetj, hrts] at h6
      omega

/-- On a well-formed, disjoint, address-ordered list, for a well-ordered
translation block (`ts ≤ te`) whose start address the literal binary
search can handle, a block of the list is added iff it passes the
half-overlap test (core of amended claim C1). -/
theorem mem_tbCovered_iff_overlap {bbs : List BasicBlock} {ts te : Nat}
    (hwf : wellFormed bbs) (hds : disjSorted bbs) (hle : ts ≤ te)
    (hfind : findable ts bbs) {bb : BasicBlock} (hbb : bb ∈ bbs) :
    bb ∈ tbCovered bbs ts te ↔ tbOverlaps bb ts te = true := by
  have hwfg : ∀ (i : Nat) (hi : i < bbs.length),
      bbs[i].start_addr ≤ bbs[i].end_addr :=
    fun i hi => hwf _ (List.getElem_mem hi)
  have hdsg : ∀ (i k : Nat) (hi : i < bbs.length) (hk : k < bbs.length),
      i < k → bbs[i].end_addr < bbs[k].start_addr :=
    fun i k hi hk hik => List.pairwise_iff_getElem.mp hds i k hi hk hik
  have hsort : sortedByStart bbs := by
    rw [sortedByStart, List.pairwise_iff_getElem]
    intro i k hi hk hik
    have hx := hdsg i k hi hk hik
    have hy := hwfg i hi
    omega
  constructor
  · exact fun h => (scanTB_subset h).2
  · intro hov
    obtain ⟨j, hj, hgetj⟩ := List.mem_iff_getElem.mp hbb
    suffices hidx : binarySearch ts bbs ≤ j by
      rw [tbCovered]
      refine scanTB_complete (sortedByStart_drop hsort _) hle ?_ hov
      exact hgetj ▸ getElem_mem_drop hidx hj
    have hovp := tbOverlaps_iff.mp hov
    rw [binarySearch]
    by_cases h1 : ts ≤ (bbGet bbs 0).end_addr
    · rw [if_pos h1]
      omega
    · rw [if_neg h1]
      by_cases h2 : ts > (bbGet bbs (bbs.length - 1)).end_addr
      · exfalso
        rw [bbGet_eq bbs (by omega : bbs.length - 1 < bbs.length)] at h2
        by_cases hjl : j = bbs.length - 1
        · subst hjl
          rw [hgetj] at h2
          rcases hovp with ⟨ha, hb⟩ | ⟨ha, hb⟩ <;> omega
        · have hjlt : j < bbs.length - 1 := by omega
          have h3 := hdsg j (bbs.length - 1) hj (by omega) hjlt
          rw [hgetj] at h3
          have h4 := hwfg (bbs.length - 1) (by omega)
          rcases hovp with ⟨ha, hb⟩ | ⟨ha, hb⟩ <;> omega
      · rw [if_neg h2]
        have hfind3 : ∃ bbk ∈ bbs, bbk.start_addr = ts := by
          rcases hfind with hf | hf | hf
          · exact absurd hf h1
          · exact absurd hf h2
          · exact hf
        obtain ⟨bbk, hbbk, hbbkts⟩ := hfind3
        obtain ⟨k, hk, hgetk⟩ := List.mem_iff_getElem.mp hbbk
        obtain ⟨hrlt, hrts⟩ := @bsLoop_finds ts bbs hsort bbs.length 0
          bbs.length (Nat.le_refl _) (by omega)
          ⟨k, Nat.zero_le _, hk, hk, by rw [hgetk]; exact hbbkts⟩
        rw [bbGet_eq bbs hrlt] at hrts
        by_contra hcon
        have hjr : j < bsLoop ts bbs bbs.length 0 bbs.length := by omega
        have h5 := hdsg j _ hj hrlt hjr
        rw [hgetj, hrts] at h5
        rcases hovp with ⟨ha, hb⟩ | ⟨ha, hb⟩ <;> omega

theorem to_dict_injective : Function.Injective to_dict := by
  intro a b h
  simp only [to_dict, Prod.mk.injEq] at h
  cases a
  cases b
  simp_all

/-- In a duplicate-free list (a Python set), an element occurs once if it
is a member and zero times otherwise. -/
theorem countP_eq_of_nodup (bb : BasicBlock) :
    ∀ l : List BasicBlock, l.Nodup →
      l.countP (fun b => decide (b = bb)) = if bb ∈ l then 1 else 0 := by
  intro l
  induction l with
  | nil => intro _; rfl
  | cons a t ih =>
    intro hnd
    rw [List.countP_cons, ih (List.nodup_cons.mp hnd).2]
    by_cases hab : a = bb
    · subst hab
      have hnm : a ∉ t := (List.nodup_cons.mp hnd).1
      simp [hnm]
    · simp [hab, List.mem_cons, Ne.symm hab]

/-- Counting the dict of one block in the flattened coverage list: with
duplicate-free per-state sets, the multiplicity is the number of states
whose set contains the block. -/
theorem count_flatMap_to_dict (bb : BasicBlock) :
    ∀ l : List (Nat × List BasicBlock), (∀ p ∈ l, p.2.Nodup) →
      ((l.map Prod.snd).flatMap (fun bbs => bbs.map to_dict)).countP
          (fun d => decide (d = to_dict bb))
        = (l.filter (fun p => decide (bb ∈ p.2))).length := by
  intro l
  induction l with
  | nil => intro _; rfl
  | cons p rest ih =>
    intro hnd
    rw [List.map_cons, List.flatMap_cons, List.countP_append, List.countP_map]
    have hcong : p.2.countP ((fun d => decide (d = to_dict bb)) ∘ to_dict)
        = p.2.countP (fun b => decide (b = bb)) := by
      refine List.countP_congr fun b _ => ?_
      simp only [Function.comp]
      by_cases hb : b = bb
      · simp [hb]
      · simp [hb, to_dict_injective.ne hb]
    rw [hcong, countP_eq_of_nodup bb p.2 (hnd p (List.mem_cons_self _ _))]
    have ihr := ih fun q hq => hnd q (List.mem_cons_of_mem _ hq)
    by_cases hmem : bb ∈ p.2
    · rw [List.filter_cons_of_pos (by simp [hmem])]
      rw [List.length_cons, ihr]
      simp [hmem]
      omega
    · rw [List.filter_cons_of_neg (by simp [hmem])]
      rw [ihr]
      simp [hmem]

/-! The claims -/

/-- Claim C1, counterexample: on the start-sorted list
`[[10,20], [30,40]]`, the state `0` with intervals `(10,15)` and
`(25,35)` appears in the result with covered set `{[10,20]}` only,
although the interval `(25,35)` half-overlaps `[30,40]`
(`30 <= 35 <= 40`): the literal binary search returns "not found" for
`tb_start = 25`, so the scan for that interval is empty, refuting the
claimed iff for every sorted list and interval map. -/
theorem coverage_spec_counterexample :
    ¬ (∀ (tb_coverage : List (Nat × List (Nat × Nat × Nat)))
        (bbs : List BasicBlock), sortedByStart bbs →
        ∀ p ∈ getBasicBlockCoverage tb_coverage bbs,
          ∃ cov, (p.1, cov) ∈ tb_coverage ∧
            ∀ bb ∈ bbs, (bb ∈ p.2 ↔ ∃ t ∈ cov, tbOverlaps bb t.1 t.2.1 = true)) := by
  intro h
  obtain ⟨cov, hcov, hiff⟩ := h [(0, [(10, 15, 0), (25, 35, 0)])]
    [⟨10, 20, "a"⟩, ⟨30, 40, "b"⟩] (by decide) (0, [⟨10, 20, "a"⟩]) (by decide)
  have hcv : cov = [(10, 15, 0), (25, 35, 0)] := by simpa using hcov
  subst hcv
  have hmem := (hiff ⟨30, 40, "b"⟩ (by decide)).mpr ⟨(25, 35, 0), by decide, by decide⟩
  exact absurd hmem (by decide)

/-- Claim C1, amended: for a non-empty list of well-formed
(`start_addr <= end_addr`), pairwise disjoint, address-ordered basic
blocks, and intervals that are well-ordered (`tb_start <= tb_end`) and
whose start address the literal binary search can handle (`findable`:
at most the end of the first block, past the end of the last block, or
exactly at the start of some block), a block is in the set of a result
state iff one of the intervals of that state half-overlaps it. -/
theorem coverage_matches_overlap_spec
    (tb_coverage : List (Nat × List (Nat × Nat × Nat))) (bbs : List BasicBlock)
    (hwf : wellFormed bbs) (hds : disjSorted bbs)
    (hiv : ∀ p ∈ tb_coverage, ∀ t ∈ p.2, t.1 ≤ t.2.1 ∧ findable t.1 bbs)
    (p : Nat × List BasicBlock) (hp : p ∈ getBasicBlockCoverage tb_coverage bbs) :
    ∃ cov, (p.1, cov) ∈ tb_coverage ∧
      ∀ bb ∈ bbs, (bb ∈ p.2 ↔ ∃ t ∈ cov, tbOverlaps bb t.1 t.2.1 = true) := by
  rw [getBasicBlockCoverage] at hp
  obtain ⟨q, hq, hpq⟩ := List.mem_map.mp (List.mem_of_mem_filter hp)
  refine ⟨q.2, ?_, ?_⟩
  · rw [← hpq]
    exact hq
  · intro bb hbb
    rw [← hpq]
    constructor
    · intro hmem
      obtain ⟨t, ht, htm⟩ := List.mem_flatMap.mp hmem
      exact ⟨t, ht, (scanTB_subset htm).2⟩
    · intro ⟨t, ht, hov⟩
      obtain ⟨hle, hfind⟩ := hiv q hq t ht
      exact List.mem_flatMap.mpr
        ⟨t, ht, (mem_tbCovered_iff_overlap hwf hds hle hfind hbb).mpr hov⟩

/-- Witness for the amended claim C1 at a concrete input: blocks
`[[10,20], [30,40]]`, one state with the single interval `(15,35)`. -/
theorem coverage_matches_overlap_spec_witness :
    wellFormed [⟨10, 20, "a"⟩, ⟨30, 40, "b"⟩] ∧
    disjSorted [⟨10, 20, "a"⟩, ⟨30, 40, "b"⟩] ∧
    findable 15 [⟨10, 20, "a"⟩, ⟨30, 40, "b"⟩] ∧
    ∃ cov, ((1 : Nat), cov) ∈ [(1, [(15, 35, 0)])] ∧
      ∀ bb ∈ [(⟨10, 20, "a"⟩ : BasicBlock), ⟨30, 40, "b"⟩],
        (bb ∈ [(⟨10, 20, "a"⟩ : BasicBlock), ⟨30, 40, "b"⟩] ↔
          ∃ t ∈ cov, tbOverlaps bb t.1 t.2.1 = true) :=
  ⟨by decide, by decide, by decide,
    coverage_matches_overlap_spec [(1, [(15, 35, 0)])] [⟨10, 20, "a"⟩, ⟨30, 40, "b"⟩]
      (by decide) (by decide) (by decide)
      (1, [⟨10, 20, "a"⟩, ⟨30, 40, "b"⟩]) (by decide)⟩

/-- Claim C2 (code bug): the claim describes the intended drcov records
(and `structPackIHH` produces exactly the claimed 8-byte little-endian
records for the synthetic module), but `_save_drcov` never emits them:
its call of `open` with mode "wb" and encoding "utf-8" raises
`ValueError` on the first state (a binary mode takes no encoding in
Python 3), so for `base_addr = 0x1000` and covered blocks
`[0x1000, 0x1010]` and `[0x1020, 0x1030]` the writer creates the `drcov`
directory and then aborts with no file and no record written.  (Even were
the open to succeed, the source writes `str(struct.pack(...))`, the ASCII
repr of the bytes, not the 8 raw bytes.) -/
theorem drcov_records_code_bug :
    structPackIHH (0x1000 - 0x1000) (0x1010 - 0x1000) 0 =
      [0x00, 0x00, 0x00, 0x00, 0x10, 0x00, 0x00, 0x00] ∧
    structPackIHH (0x1020 - 0x1000) (0x1030 - 0x1020) 0 =
      [0x20, 0x00, 0x00, 0x00, 0x10, 0x00, 0x00, 0x00] ∧
    save_drcov ⟨["s2e-last"], []⟩ 0x1000 0x2000
        [(0, [⟨0x1000, 0x1010, ""⟩, ⟨0x1020, 0x1030, ""⟩])] =
      (⟨["s2e-last/drcov", "s2e-last"], []⟩,
        some "ValueError: binary mode takes no encoding argument") := by
  exact ⟨by decide, by decide, by decide⟩

/-- Claim C3: the literal `_binary_search`, on a non-empty list sorted
ascending by `start_addr`, read as the ordered guards of the code: it returns
`0` when `tb_start <= bbs[0].end_addr`; otherwise returns the length when
`tb_start > bbs[last].end_addr`; otherwise returns an index of a block
whose `start_addr` equals `tb_start` exactly when such a block exists,
and the length ("not found", an empty scan) when no block starts exactly
at `tb_start`. -/
theorem binary_search_spec (bbs : List BasicBlock) (ts : Nat)
    (hne : bbs ≠ []) (hsort : sortedByStart bbs) :
    (ts ≤ (bbGet bbs 0).end_addr → binarySearch ts bbs = 0) ∧
    (¬ ts ≤ (bbGet bbs 0).end_addr →
      ts > (bbGet bbs (bbs.length - 1)).end_addr →
      binarySearch ts bbs = bbs.length) ∧
    (¬ ts ≤ (bbGet bbs 0).end_addr →
      ¬ ts > (bbGet bbs (bbs.length - 1)).end_addr →
      ((∃ bb ∈ bbs, bb.start_addr = ts) →
        binarySearch ts bbs < bbs.length ∧
          (bbGet bbs (binarySearch ts bbs)).start_addr = ts) ∧
      ((∀ bb ∈ bbs, bb.start_addr ≠ ts) → binarySearch ts bbs = bbs.length)) := by
  have hlen : 0 < bbs.length := List.length_pos.mpr hne
  refine ⟨?_, ?_, ?_⟩
  · intro h1
    rw [binarySearch, if_pos h1]
  · intro h1 h2
    rw [binarySearch, if_neg h1, if_pos h2]
  · intro h1 h2
    constructor
    · intro ⟨bbk, hbbk, hts⟩
      obtain ⟨k, hk, hgetk⟩ := List.mem_iff_getElem.mp hbbk
      have hf := @bsLoop_finds ts bbs hsort bbs.length 0 bbs.length
        (Nat.le_refl _) (by omega) ⟨k, Nat.zero_le _, hk, hk, by rw [hgetk]; exact hts⟩
      rw [binarySearch, if_neg h1, if_neg h2]
      exact hf
    · intro hnone
      rw [binarySearch, if_neg h1, if_neg h2]
      exact bsLoop_no_match hnone bbs.length 0 bbs.length (Nat.le_refl _)

/-- Witness for claim C3 at the concrete input `[[10,20], [30,40]]`,
`tb_start = 30` (interior exact match, found at index 1). -/
theorem binary_search_spec_witness :
    binarySearch 30 [⟨10, 20, "a"⟩, ⟨30, 40, "b"⟩] <
        ([(⟨10, 20, "a"⟩ : BasicBlock), ⟨30, 40, "b"⟩]).length ∧
    (bbGet [⟨10, 20, "a"⟩, ⟨30, 40, "b"⟩]
        (binarySearch 30 [⟨10, 20, "a"⟩, ⟨30, 40, "b"⟩])).start_addr = 30 :=
  ((binary_search_spec [⟨10, 20, "a"⟩, ⟨30, 40, "b"⟩] 30 (by decide)
      (by decide)).2.2 (by decide) (by decide)).1 ⟨⟨30, 40, "b"⟩, by decide, rfl⟩

/-- Claim C4, counterexample: two `BasicBlock` objects with identical
`(start_addr, end_addr, function)` triples compare unequal — the class
defines no `__eq__`, so Python identity equality applies. -/
theorem basic_block_eq_counterexample :
    ¬ (∀ a b : PyBasicBlock,
        pyBasicBlockEq a b = true ↔
          a.start_addr = b.start_addr ∧ a.end_addr = b.end_addr ∧
            a.function = b.function) := by
  intro h
  have hc := (h ⟨0, 16, 32, "main"⟩ ⟨1, 16, 32, "main"⟩).mpr ⟨rfl, rfl, rfl⟩
  simp [pyBasicBlockEq] at hc

/-- Claim C4, amended: `BasicBlock` equality is object identity (the
class defines no `__eq__`); the default hash is derived from the object
id and is consistent with that equality, so `BasicBlock`s can be inserted
into sets; and no order methods are defined, so `<` raises `TypeError`
(the source sorts block lists with an explicit `start_addr` key instead). -/
theorem basic_block_identity_semantics (a b : PyBasicBlock) :
    (pyBasicBlockEq a b = true ↔ a.oid = b.oid) ∧
    (pyBasicBlockEq a b = true → pyBasicBlockHash a = pyBasicBlockHash b) ∧
    pyBasicBlockLt a b =
      Except.error "TypeError: not supported between instances of BasicBlock" := by
  refine ⟨?_, ?_, rfl⟩
  · simp [pyBasicBlockEq]
  · intro h
    simp only [pyBasicBlockEq, beq_iff_eq] at h
    simp [pyBasicBlockHash, h]

/-- Claim C5 (code bug): the target binary is modified at time `20`,
newer than the mtime `10` of the cached `.disas` artifact, so per the
claim (and the own comment of the source) the cache is stale and must be
regenerated; but the source compares the `.disas` mtime against
the mtime of the project directory (here `5`), not
against the target binary, and returns the stale cached blocks. -/
theorem cached_disas_mtime_code_bug :
    get_cached_disassembly_info true 10 5 ⟨[⟨0, 1, ""⟩], 0, 4096⟩ =
      some ⟨[⟨0, 1, ""⟩], 0, 4096⟩ ∧ (10 : Nat) < 20 :=
  ⟨rfl, by decide⟩

/-- Claim C6 (code bug): first conjunct — when the `drcov` directory
already exists, `_save_drcov` fails with the "already generated"
`CommandError` before creating or writing anything, leaving the prior
files of the prior invocation unmodified (this half of the claim holds).  Second
conjunct — when the directory does not exist, the claim says the
per-state files are written, but the code creates the directory and then
aborts with `ValueError` from the binary-mode-with-encoding `open`: no
per-state file is ever written. -/
theorem drcov_directory_code_bug :
    save_drcov ⟨["s2e-last/drcov", "s2e-last"],
        [("s2e-last/drcov/a_coverage_0.drcov", "prior")]⟩ 0x1000 0x2000
        [(0, [⟨0x1000, 0x1010, ""⟩])] =
      (⟨["s2e-last/drcov", "s2e-last"],
        [("s2e-last/drcov/a_coverage_0.drcov", "prior")]⟩,
        some "CommandError: drcov directory already exists") ∧
    save_drcov ⟨["s2e-last"], []⟩ 0x1000 0x2000 [(0, [⟨0x1000, 0x1010, ""⟩])] =
      (⟨["s2e-last/drcov", "s2e-last"], []⟩,
        some "ValueError: binary mode takes no encoding argument") := by
  exact ⟨by decide, by decide⟩

/-- Claim C7: the `stats` object of the JSON writer carries the given totals
unchanged, its `coverage` list is the flattened concatenation of all
covered-block sets of all states, and (per-state sets being duplicate-free) a
block covered in `k` states appears `k` times in the flattened list. -/
theorem save_basic_block_coverage_spec
    (basic_blocks : List (Nat × List BasicBlock))
    (total_bbs num_covered_bbs : Nat) (bb : BasicBlock)
    (hnd : ∀ p ∈ basic_blocks, p.2.Nodup) :
    (save_basic_block_coverage basic_blocks total_bbs
        num_covered_bbs).total_basic_blocks = total_bbs ∧
    (save_basic_block_coverage basic_blocks total_bbs
        num_covered_bbs).covered_basic_blocks = num_covered_bbs ∧
    (save_basic_block_coverage basic_blocks total_bbs num_covered_bbs).coverage
      = (basic_blocks.map Prod.snd).flatMap (fun bbs => bbs.map to_dict) ∧
    ((save_basic_block_coverage basic_blocks total_bbs
        num_covered_bbs).coverage).countP (fun d => decide (d = to_dict bb))
      = (basic_blocks.filter (fun p => decide (bb ∈ p.2))).length :=
  ⟨rfl, rfl, rfl, count_flatMap_to_dict bb basic_blocks hnd⟩

/-- Witness for claim C7 at the concrete shape the spec gives: `total_bbs = 10`,
three covered blocks spread over two states with no sharing; the stats
are `10` and `3`, the flattened list has length `3`, and the block
`[1,2]` appears exactly once (it is covered in exactly one state). -/
theorem save_basic_block_coverage_spec_witness :
    (save_basic_block_coverage [(0, [⟨1, 2, "f"⟩, ⟨3, 4, "g"⟩]), (1, [⟨5, 6, "h"⟩])]
        10 3).total_basic_blocks = 10 ∧
    (save_basic_block_coverage [(0, [⟨1, 2, "f"⟩, ⟨3, 4, "g"⟩]), (1, [⟨5, 6, "h"⟩])]
        10 3).covered_basic_blocks = 3 ∧
    ((save_basic_block_coverage [(0, [⟨1, 2, "f"⟩, ⟨3, 4, "g"⟩]), (1, [⟨5, 6, "h"⟩])]
        10 3).coverage).countP (fun d => decide (d = to_dict ⟨1, 2, "f"⟩))
      = (([(0, [⟨1, 2, "f"⟩, ⟨3, 4, "g"⟩]), (1, [⟨5, 6, "h"⟩])] :
          List (Nat × List BasicBlock)).filter
            (fun p => decide ((⟨1, 2, "f"⟩ : BasicBlock) ∈ p.2))).length ∧
    ((save_basic_block_coverage [(0, [⟨1, 2, "f"⟩, ⟨3, 4, "g"⟩]), (1, [⟨5, 6, "h"⟩])]
        10 3).coverage).length = 3 := by
  have h := save_basic_block_coverage_spec
    [(0, [⟨1, 2, "f"⟩, ⟨3, 4, "g"⟩]), (1, [⟨5, 6, "h"⟩])] 10 3 ⟨1, 2, "f"⟩ (by decide)
  exact ⟨h.1, h.2.1, h.2.2.2, by decide⟩

/-- Claim C8, counterexample: on the sorted list
`[[0,1], [10,11], [10,12], [20,30], [40,50]]` (two blocks share the
start address `10`), the interval exactly equal to the block `[10,11]`
does not mark `[10,11]` covered: the first probe of the binary search lands on
the other block starting at `10` (index 2), so the scan starts past
`[10,11]` and only `[10,12]` is added. -/
theorem exact_interval_counterexample :
    ¬ (∀ bbs : List BasicBlock, sortedByStart bbs →
        ∀ bb ∈ bbs, ∀ (cov : List (Nat × Nat × Nat)) (sz : Nat),
          (bb.start_addr, bb.end_addr, sz) ∈ cov →
            bb ∈ stateCoveredBBs bbs cov) := by
  intro h
  have hc := h [⟨0, 1, ""⟩, ⟨10, 11, ""⟩, ⟨10, 12, ""⟩, ⟨20, 30, ""⟩, ⟨40, 50, ""⟩]
    (by decide) ⟨10, 11, ""⟩ (by decide) [(10, 11, 0)] 0 (by decide)
  exact absurd hc (by decide)

/-- Claim C8, amended: on a list of well-formed blocks
(`start_addr <= end_addr`) whose start addresses are strictly increasing
(no two blocks share a start address), an execution interval of a state
exactly equal to a block of the list always marks that block covered for
that state. -/
theorem exact_interval_covered_amended (bbs : List BasicBlock)
    (bb : BasicBlock) (cov : List (Nat × Nat × Nat)) (sz : Nat)
    (hwf : wellFormed bbs) (hst : strictSortedByStart bbs) (hbb : bb ∈ bbs)
    (hmem : (bb.start_addr, bb.end_addr, sz) ∈ cov) :
    bb ∈ stateCoveredBBs bbs cov := by
  rw [stateCoveredBBs, List.mem_flatMap]
  exact ⟨(bb.start_addr, bb.end_addr, sz), hmem, mem_tbCovered_exact hwf hst hbb⟩

/-- Witness for the amended claim C8: `[[10,20], [30,40]]` with the
interval `(30, 40)` of the state, exactly the second block. -/
theorem exact_interval_covered_amended_witness :
    wellFormed [⟨10, 20, "a"⟩, ⟨30, 40, "b"⟩] ∧
    strictSortedByStart [⟨10, 20, "a"⟩, ⟨30, 40, "b"⟩] ∧
    (⟨30, 40, "b"⟩ : BasicBlock) ∈
      stateCoveredBBs [⟨10, 20, "a"⟩, ⟨30, 40, "b"⟩] [(30, 40, 7)] :=
  ⟨by decide, by decide,
    exact_interval_covered_amended [⟨10, 20, "a"⟩, ⟨30, 40, "b"⟩] ⟨30, 40, "b"⟩
      [(30, 40, 7)] 7 (by decide) (by decide) (by decide) (by decide)⟩

/-- Claim C9: for a list sorted ascending by `start_addr` and a
well-ordered interval (`tb_start <= tb_end`), the inner scan that breaks
as soon as `bb.start_addr > tb_end` produces, from any starting index,
exactly the blocks the same scan run to the end of the list produces: no
block at or beyond the break point can pass the half-overlap test. -/
theorem scan_short_circuit_equiv (bbs : List BasicBlock) (ts te i : Nat)
    (hsort : sortedByStart bbs) (hle : ts ≤ te) :
    scanTB ts te (bbs.drop i) = scanFullTB ts te (bbs.drop i) :=
  scanTB_eq_scanFullTB (sortedByStart_drop hsort i) hle

/-- Witness for claim C9 at a concrete input: `[[10,20], [30,40]]`,
interval `(0, 25)`, starting index `0`. -/
theorem scan_short_circuit_equiv_witness :
    sortedByStart [⟨10, 20, "a"⟩, ⟨30, 40, "b"⟩] ∧ (0 : Nat) ≤ 25 ∧
    scanTB 0 25 (([⟨10, 20, "a"⟩, ⟨30, 40, "b"⟩] : List BasicBlock).drop 0) =
      scanFullTB 0 25 (([⟨10, 20, "a"⟩, ⟨30, 40, "b"⟩] : List BasicBlock).drop 0) :=
  ⟨by decide, by decide,
    scan_short_circuit_equiv [⟨10, 20, "a"⟩, ⟨30, 40, "b"⟩] 0 25 0
      (by decide) (by decide)⟩

/-- Claim C10: encoding a `BasicBlock` with `BasicBlockEncoder` and
decoding the result with the `object_hook` of `BasicBlockDecoder` yields
a block whose three fields equal those of the original (the constructor
normalisation of a falsy function to the empty string is the identity on an
already-stored `function` string). -/
theorem basic_block_json_roundtrip (bb : BasicBlock) :
    (bbDecoderObjectHook (bbEncoderDefault bb)).start_addr = bb.start_addr ∧
    (bbDecoderObjectHook (bbEncoderDefault bb)).end_addr = bb.end_addr ∧
    (bbDecoderObjectHook (bbEncoderDefault bb)).function = bb.function := by
  refine ⟨rfl, rfl, ?_⟩
  show (if bb.function = "" then "" else bb.function) = bb.function
  by_cases h : bb.function = "" <;> simp [h]

/-- Witness for the amended claim C4 at two concrete objects: the same
object compares equal to itself with matching hash, and ordering raises. -/
theorem basic_block_identity_semantics_witness :
    (pyBasicBlockEq ⟨7, 1, 2, "f"⟩ ⟨7, 1, 2, "f"⟩ = true ↔
      (PyBasicBlock.mk 7 1 2 "f").oid = (PyBasicBlock.mk 7 1 2 "f").oid) ∧
    (pyBasicBlockEq ⟨7, 1, 2, "f"⟩ ⟨7, 1, 2, "f"⟩ = true →
      pyBasicBlockHash ⟨7, 1, 2, "f"⟩ = pyBasicBlockHash ⟨7, 1, 2, "f"⟩) ∧
    pyBasicBlockLt ⟨7, 1, 2, "f"⟩ ⟨7, 1, 2, "f"⟩ =
      Except.error "TypeError: not supported between instances of BasicBlock" :=
  basic_block_identity_semantics ⟨7, 1, 2, "f"⟩ ⟨7, 1, 2, "f"⟩
